import Mathlib

/-!
Verification of the layer-wrapper library in src/nnet/layers.py.

Modelling conventions (shallow embedding):
* Tensors are lists of rationals (`List ℚ`); matrices are `List (List ℚ)`
  in row-major layout.  Exact rational arithmetic stands in for the
  floating-point arithmetic of the runtime: the embedded operations
  perform structurally the same multiplications and additions as the
  source, in the same order.
* Fallible operations (Python exceptions: bad index, `torch.stack` on an
  empty list or a list containing `None`, missing `vn_std`) are modelled
  with `Option`.
* The external runtime primitives (`F.linear`, `F.embedding`,
  `torch.nn.ConvNd`, `_VF.lstm`) are out of scope of the source library;
  they are embedded by their documented interface contracts, and the
  recurrent primitive is kept as an explicit function parameter since the
  library only decides which flattened weight list to pass to it.
* `torch.normal` draws are modelled by an arbitrary value source
  `rngv : ℕ → ℕ → ℚ` (draw number, element index); the distributed
  broadcast from rank 0 is the identity on the broadcasting participant
  and is therefore not reflected in the sampled values.
-/

/-! ## Elementwise tensor arithmetic -/

/-- Elementwise addition of two equally shaped vectors. -/
def vecAdd (a b : List ℚ) : List ℚ := List.zipWith (· + ·) a b

/-- Scalar multiplication of a vector. -/
def vecScale (m : ℚ) (a : List ℚ) : List ℚ := a.map (fun v => m * v)

/-- Elementwise addition of two equally shaped matrices. -/
def matAdd (a b : List (List ℚ)) : List (List ℚ) := List.zipWith vecAdd a b

/-- Scalar multiplication of a matrix. -/
def matScale (m : ℚ) (a : List (List ℚ)) : List (List ℚ) := a.map (vecScale m)

/-- Dot product of two vectors. -/
def dot (a b : List ℚ) : ℚ := (List.zipWith (· * ·) a b).sum

/-- Matrix–vector product: one entry per row of the matrix. -/
def matVec (w : List (List ℚ)) (v : List ℚ) : List ℚ := w.map (fun row => dot v row)

/-- Runtime contract of `F.linear(x, weight, bias)` on one example:
`x · weightᵀ`, plus `bias` when present. -/
def Flinear (x : List ℚ) (w : List (List ℚ)) (b : Option (List ℚ)) : List ℚ :=
  match b with
  | some bb => vecAdd (matVec w x) bb
  | none => matVec w x

/-- A fresh random tensor draw of a given length: draw number `k` of the
value source `rngv`, one value per element index. -/
def draw (rngv : ℕ → ℕ → ℚ) (k len : ℕ) : List ℚ := (List.range len).map (rngv k)

/-- A fresh random matrix shaped like `w` (`torch.normal(..., size=w.size())`),
rows taken as consecutive draws starting at draw number `k`. -/
def drawLike (rngv : ℕ → ℕ → ℚ) (k : ℕ) (w : List (List ℚ)) : List (List ℚ) :=
  (List.range w.length).map (fun i => draw rngv (k + i) (w.getD i []).length)

/-! ## SwitchLinear (src/nnet/layers.py lines 31–70) -/

/-- One expert of a `SwitchLinear`: an `nn.Linear` with weight `(out, in)`
and an optional bias `(out)` (absent when constructed with `bias=False`,
in which case the attribute is `None`). -/
structure Expert where
  weight : List (List ℚ)
  bias : Option (List ℚ)
deriving DecidableEq, Repr

instance : Inhabited Expert := ⟨⟨[], none⟩⟩

/-- Forward of a single `nn.Linear` expert on one example:
`F.linear(x, weight, bias)`. -/
def nnLinear (e : Expert) (x : List ℚ) : List ℚ := Flinear x e.weight e.bias

/-- `SwitchLinear.forward(x, indices)`.  Mirrors the source:
gather each selected expert's weight and stack; gather each selected
expert's bias and stack (`torch.stack` raises when the list is empty or
contains `None`); batched matmul of `x.unsqueeze(1)` with the stacked
weights transposed; squeeze; add the stacked bias.  Python exceptions
(index out of range, failing stack, batch-size mismatch of the batched
matmul) are collapsed to `none`; broadcasting of singleton batch
dimensions is not modelled. -/
def SwitchLinear.forward (experts : List Expert) (x : List (List ℚ)) (indices : List ℕ) :
    Option (List (List ℚ)) :=
  match indices.mapM (fun i => experts[i]?.map Expert.weight),
      indices.mapM (fun i => experts[i]?.bind Expert.bias) with
  | some ws, some bs =>
    if ws.length = 0 then none
    else if x.length ≠ ws.length then none
    else some (List.zipWith (fun v (wb : List (List ℚ) × List ℚ) => vecAdd (matVec wb.1 v) wb.2)
      x (ws.zip bs))
  | _, _ => none

/-! ## Linear with variational noise (src/nnet/layers.py lines 72–107) -/

/-- Mutable state of the noise-capable `Linear` layer: trainable weight and
bias, the stored noise sample (`self.noise`), the configured magnitude
(`self.vn_std`), and the module's training flag. -/
structure LinearState where
  weight : List (List ℚ)
  bias : Option (List ℚ)
  noise : Option (List (List ℚ))
  vn_std : Option ℚ
  training : Bool
deriving DecidableEq, Repr

/-- `Linear.sample_synaptic_noise(distributed)`: stores a fresh draw shaped
like the weight.  The broadcast from rank 0 (`distributed = true`) leaves
the value on the broadcasting participant unchanged. -/
def LinearState.sampleSynapticNoise (st : LinearState) (rngv : ℕ → ℕ → ℚ) (distributed : Bool) :
    LinearState :=
  let n := drawLike rngv 0 st.weight
  let n := if distributed then n else n
  { st with noise := some n }

/-- `Linear.forward(x)`: when a noise sample is stored and the module is
training, the weight used by `F.linear` is `weight + vn_std * noise`
(a Python error when `vn_std` was never configured, hence `none`);
otherwise the raw weight. -/
def LinearState.forward (st : LinearState) (x : List ℚ) : Option (List ℚ) :=
  match st.noise, st.training with
  | some n, true => st.vn_std.map (fun m => Flinear x (matAdd st.weight (matScale m n)) st.bias)
  | _, _ => some (Flinear x st.weight st.bias)

/-! ## Embedding with variational noise (src/nnet/layers.py lines 578–614) -/

/-- Runtime contract of `F.embedding(input, weight, ...)` with the default
`max_norm=None`: row lookup per input index (`none` on an out-of-range
index). -/
def Fembedding (input : List ℕ) (w : List (List ℚ)) : Option (List (List ℚ)) :=
  input.mapM (fun i => w[i]?)

/-- Mutable state of the noise-capable `Embedding` layer. -/
structure EmbeddingState where
  weight : List (List ℚ)
  noise : Option (List (List ℚ))
  vn_std : Option ℚ
  training : Bool
deriving DecidableEq, Repr

/-- `Embedding.sample_synaptic_noise(distributed)`: stores a fresh draw
shaped like the embedding table. -/
def EmbeddingState.sampleSynapticNoise (st : EmbeddingState) (rngv : ℕ → ℕ → ℚ)
    (distributed : Bool) : EmbeddingState :=
  let n := drawLike rngv 0 st.weight
  let n := if distributed then n else n
  { st with noise := some n }

/-- `Embedding.forward(input)`: same weight-resolution rule as `Linear`
(the missing-`vn_std` error and the out-of-range lookup error are
collapsed into the one `Option`). -/
def EmbeddingState.forward (st : EmbeddingState) (input : List ℕ) :
    Option (List (List ℚ)) :=
  match st.noise, st.training with
  | some n, true => st.vn_std.bind (fun m => Fembedding input (matAdd st.weight (matScale m n)))
  | _, _ => Fembedding input st.weight

/-! ## LSTM with variational noise (src/nnet/layers.py lines 493–575)

The LSTM flat weight tensors are modelled as flattened `List ℚ` values;
the library never looks inside them, it only adds noise elementwise.
The recurrent primitive `_VF.lstm` is external: it is kept as a function
parameter `prim` receiving the flattened weight list and the remaining
inputs, since the wrapper's only decision is which weight list to pass. -/

/-- Mutable state of the noise-capable `LSTM` layer.  `flat_weights`
mirrors `self._flat_weights`: for each (layer, direction) group, the four
tensors `weight_ih`, `weight_hh`, `bias_ih`, `bias_hh` in this order
(the constructor always builds the module with biases). -/
structure LSTMState where
  flat_weights : List (List ℚ)
  noises : Option (List (List ℚ))
  vn_std : Option ℚ
  training : Bool
deriving DecidableEq, Repr

/-- `LSTM.sample_synaptic_noise(distributed)`: the source loop
`for i in range(0, len(self._flat_weights), 4)` draws one tensor shaped
like `self._flat_weights[i]` and one shaped like
`self._flat_weights[i+1]`.  An access past the end of the list
(only possible when the length is `≡ 1 (mod 4)`) is a Python
`IndexError`, modelled as `none`. -/
def sampleNoises (rngv : ℕ → ℕ → ℚ) : List (List ℚ) → ℕ → Option (List (List ℚ))
  | [], _ => some []
  | [_], _ => none
  | [w0, w1], k => some [draw rngv k w0.length, draw rngv (k + 1) w1.length]
  | [w0, w1, _], k => some [draw rngv k w0.length, draw rngv (k + 1) w1.length]
  | w0 :: w1 :: _ :: _ :: rest, k =>
    (sampleNoises rngv rest (k + 2)).map
      (fun tail => draw rngv k w0.length :: draw rngv (k + 1) w1.length :: tail)

/-- `LSTM.sample_synaptic_noise(distributed)` on the module state. -/
def LSTMState.sampleSynapticNoise (st : LSTMState) (rngv : ℕ → ℕ → ℚ) (distributed : Bool) :
    Option LSTMState :=
  let r := (sampleNoises rngv st.flat_weights 0).map (fun ns => { st with noises := some ns })
  if distributed then r else r

/-- The weight-list construction of `LSTM.forward` when noise is active,
with the source's exact indexing: the loop variable `i` runs over
`range(0, len(self.noises), 2)` (group number `g = i / 2`) and the body
reads `self._flat_weights[2*i]`, `[2*i+1]`, `[2*i+2]`, `[2*i+3]`
(that is, positions `4*g` to `4*g+3`) and `self.noises[i]`,
`self.noises[i+1]`.  Out-of-range reads are Python `IndexError`s,
modelled as `none`. -/
def lstmMix (m : ℚ) (fw : List (List ℚ)) : ℕ → List (List ℚ) → Option (List (List ℚ))
  | _, [] => some []
  | _, [_] => none
  | g, n0 :: n1 :: rest => do
    let w0 ← fw[4 * g]?
    let w1 ← fw[4 * g + 1]?
    let w2 ← fw[4 * g + 2]?
    let w3 ← fw[4 * g + 3]?
    let tail ← lstmMix m fw (g + 1) rest
    some (vecAdd w0 (vecScale m n0) :: vecAdd w1 (vecScale m n1) :: w2 :: w3 :: tail)

/-- `LSTM.forward` (non-packed input path): resolve the flattened weight
list — `weight + vn_std * noise` on the first two tensors of each group
when noise is stored and the module is training, the raw
`self._flat_weights` otherwise — then hand it to the recurrent
primitive. -/
def LSTMState.forward {I O : Type} (prim : List (List ℚ) → I → O) (st : LSTMState) (input : I) :
    Option O :=
  match st.noises, st.training with
  | some ns, true =>
    st.vn_std.bind (fun m => (lstmMix m st.flat_weights 0 ns).map (fun w => prim w input))
  | _, _ => some (prim st.flat_weights input)

/-- Modelled from the spec (§4.2, recurrent specifics), the claimed shape
of the resolved weight list: per (layer, direction) group of four flat
tensors, the `weight_ih` and `weight_hh` tensors are perturbed by their
two consecutive noise tensors, and the two bias tensors are passed
through unmodified in their original positions. -/
def specPerturb (m : ℚ) : List (List ℚ) → List (List ℚ) → List (List ℚ)
  | w0 :: w1 :: w2 :: w3 :: rest, n0 :: n1 :: ns =>
    vecAdd w0 (vecScale m n0) :: vecAdd w1 (vecScale m n1) :: w2 :: w3 :: specPerturb m rest ns
  | ws, _ => ws

/-! ## Forward convolutions (src/nnet/layers.py lines 109–326)

The wrapped `nn.ConvNd` primitives are constructed with `padding=0`; all
requested padding is applied as an explicit pre-op constant pad.  The
constructors only compute the pre-pad amounts (and assert the mode), so
they are embedded as functions from the configuration to the per-side
pad amounts, `Except` capturing the `AssertionError`. -/

/-- `nn.ConstantPad1d((l, r), 0)` on one channel. -/
def pad1d (l r : ℕ) (x : List ℚ) : List ℚ :=
  List.replicate l 0 ++ (x ++ List.replicate r 0)

/-- Output spatial length of `nn.Conv1d` (native padding 0) on an input of
spatial length `Lp`: `(Lp - dilation*(kernel-1) - 1) / stride + 1`. -/
def conv1dOutLen (Lp k d s : ℕ) : ℕ := (Lp - (d * (k - 1) + 1)) / s + 1

/-- Runtime contract of the `nn.Conv1d` primitive (native padding 0,
groups 1) on an already padded input `xp` of shape (channels, length):
output channel `o`, position `t` is
`bias[o] + Σ_c Σ_j weight[o][c][j] * xp[c][t*stride + j*dilation]`. -/
def conv1dPrim (weight : List (List (List ℚ))) (bias : List ℚ) (k d s : ℕ)
    (xp : List (List ℚ)) : List (List ℚ) :=
  (List.range weight.length).map (fun o =>
    (List.range (conv1dOutLen (xp.headD []).length k d s)).map (fun t =>
      bias.getD o 0 +
        ((List.range (weight.getD o []).length).map (fun c =>
          ((List.range k).map (fun j =>
            ((weight.getD o []).getD c []).getD j 0 *
              (xp.getD c []).getD (t * s + j * d) 0)).sum)).sum))

/-- `Conv1d.__init__`: asserts the padding mode and fixes the explicit
pre-pad pair — `valid ↦ (0, 0)`, `same ↦ (k/2, (k-1)/2)`,
`causal ↦ (k-1, 0)`. -/
def Conv1d.init (kernel_size stride dilation : ℕ) (padding : String) :
    Except String (ℕ × ℕ) :=
  if padding = "valid" ∨ padding = "same" ∨ padding = "causal" then
    if padding = "valid" then .ok (0, 0)
    else if padding = "same" then .ok (kernel_size / 2, (kernel_size - 1) / 2)
    else .ok (kernel_size - 1, 0)
  else .error "Conv1d: assert padding in [valid, same, causal]"

/-- `Conv1d.forward` (channels-first): explicit pre-pad of every channel,
then the wrapped primitive. -/
def Conv1d.forward (weight : List (List (List ℚ))) (bias : List ℚ) (k d s : ℕ)
    (pads : ℕ × ℕ) (x : List (List ℚ)) : List (List ℚ) :=
  conv1dPrim weight bias k d s (x.map (pad1d pads.1 pads.2))

/-- `Conv2d.__init__`: asserts `padding in ["valid", "same"]` (no causal
mode in rank 2) and fixes per-dimension pre-pad pairs. -/
def Conv2d.init (k0 k1 stride dilation : ℕ) (padding : String) :
    Except String ((ℕ × ℕ) × (ℕ × ℕ)) :=
  if padding = "valid" ∨ padding = "same" then
    if padding = "valid" then .ok ((0, 0), (0, 0))
    else .ok ((k0 / 2, (k0 - 1) / 2), (k1 / 2, (k1 - 1) / 2))
  else .error "Conv2d: assert padding in [valid, same]"

/-- `Conv3d.__init__`: asserts the mode; `causal` pads dimension 0
causally and dimensions 1, 2 like `same`. -/
def Conv3d.init (k0 k1 k2 stride dilation : ℕ) (padding : String) :
    Except String ((ℕ × ℕ) × (ℕ × ℕ) × (ℕ × ℕ)) :=
  if padding = "valid" ∨ padding = "same" ∨ padding = "causal" then
    if padding = "valid" then .ok ((0, 0), (0, 0), (0, 0))
    else if padding = "same" then
      .ok ((k0 / 2, (k0 - 1) / 2), (k1 / 2, (k1 - 1) / 2), (k2 / 2, (k2 - 1) / 2))
    else .ok ((k0 - 1, 0), (k1 / 2, (k1 - 1) / 2), (k2 / 2, (k2 - 1) / 2))
  else .error "Conv3d: assert padding in [valid, same, causal]"

/-! ## Transpose convolutions (src/nnet/layers.py lines 328–491) -/

/-- Configuration of a `ConvTranspose1d` after `__init__`: `padding` is
the wrapped op's native padding parameter after the constructor's
overwrite loop `self.padding[i] = self.dilation[i] * (self.kernel_size[i] - 1)`,
and `prePad` the explicit pre-op pad pair. -/
structure ConvT1dCfg where
  kernel_size : ℕ
  stride : ℕ
  dilation : ℕ
  output_padding : ℕ
  padding : ℕ
  prePad : ℕ × ℕ
deriving DecidableEq, Repr

/-- `ConvTranspose1d.__init__`: overwrite the native padding to
`dilation * (kernel_size - 1)`, assert the mode, then fix the explicit
pre-pad — `valid ↦ (d*(k-1), d*(k-1))`, `same ↦ (k/2, (k-1)/2)`,
`causal ↦ (k-1, 0)`. -/
def ConvTranspose1d.init (kernel_size stride output_padding dilation : ℕ) (padding : String) :
    Except String ConvT1dCfg :=
  let nativePadding := dilation * (kernel_size - 1)
  if padding = "valid" ∨ padding = "same" ∨ padding = "causal" then
    if padding = "valid" then
      .ok ⟨kernel_size, stride, dilation, output_padding, nativePadding,
        (dilation * (kernel_size - 1), dilation * (kernel_size - 1))⟩
    else if padding = "same" then
      .ok ⟨kernel_size, stride, dilation, output_padding, nativePadding,
        (kernel_size / 2, (kernel_size - 1) / 2)⟩
    else
      .ok ⟨kernel_size, stride, dilation, output_padding, nativePadding, (kernel_size - 1, 0)⟩
  else .error "ConvTranspose1d: assert padding in [valid, same, causal]"

/-- Output spatial length of the `nn.ConvTranspose1d` primitive on an
input of spatial length `L` (PyTorch contract):
`(L - 1)*stride - 2*padding + dilation*(kernel-1) + output_padding + 1`.
Computed over `ℤ` so that the arithmetic never truncates. -/
def convT1dOutLen (cfg : ConvT1dCfg) (L : ℤ) : ℤ :=
  (L - 1) * cfg.stride - 2 * cfg.padding + cfg.dilation * (cfg.kernel_size - 1 : ℕ)
    + cfg.output_padding + 1

/-- Output spatial length of the whole `ConvTranspose1d.forward`: the
explicit pre-pad extends the input, then the wrapped op runs with the
overwritten native padding. -/
def ConvTranspose1d.outLen (cfg : ConvT1dCfg) (L : ℤ) : ℤ :=
  convT1dOutLen cfg (L + cfg.prePad.1 + cfg.prePad.2)

/-- Configuration of a `ConvTranspose2d` after `__init__`: the
constructor has no padding-mode logic at all — the numeric `padding`
argument (default 0) is passed straight to the wrapped op and there is
no pre-op padding. -/
structure ConvT2dCfg where
  kernel_size : ℕ
  stride : ℕ
  padding : ℕ
  output_padding : ℕ
  dilation : ℕ
deriving DecidableEq, Repr

/-- `ConvTranspose2d.__init__` (parameters for one of the two symmetric
spatial dimensions). -/
def ConvTranspose2d.init (kernel_size stride padding output_padding dilation : ℕ) :
    ConvT2dCfg :=
  ⟨kernel_size, stride, padding, output_padding, dilation⟩

/-- Configuration of a `ConvTranspose3d` after `__init__`: like rank 2,
no padding-mode logic, but the `output_padding` argument is silently
replaced by `min(output_padding, stride - 1)`. -/
structure ConvT3dCfg where
  kernel_size : ℕ
  stride : ℕ
  padding : ℕ
  output_padding : ℕ
  dilation : ℕ
deriving DecidableEq, Repr

/-- `ConvTranspose3d.__init__` (parameters for one of the three symmetric
spatial dimensions). -/
def ConvTranspose3d.init (kernel_size stride padding output_padding dilation : ℕ) :
    ConvT3dCfg :=
  ⟨kernel_size, stride, padding, min output_padding (stride - 1), dilation⟩

/-! ## Masked global average pooling (src/nnet/layers.py lines 701–754)

The pooled dimension(s) are modelled flattened into a single list. -/

/-- Plain mean along the pooled dimension (`x.mean(dim)`). -/
def listMean (x : List ℚ) : ℚ := x.sum / (x.length : ℚ)

/-- The masked-average formula of the spec:
`sum(x*mask) / count_nonzero(mask)`. -/
def maskedSumDiv (x m : List ℚ) : ℚ :=
  (List.zipWith (· * ·) x m).sum / (((m.filter (fun v => v ≠ 0)).length : ℚ))

/-- `GlobalAvgPool1d.forward(x, mask)`: with a mask,
`(x * mask).sum(dim) / mask.count_nonzero(dim)`; without, `x.mean(dim)`. -/
def GlobalAvgPool1d.forward (x : List ℚ) (mask : Option (List ℚ)) : ℚ :=
  match mask with
  | some m => (List.zipWith (· * ·) x m).sum / (((m.filter (fun v => v ≠ 0)).length : ℚ))
  | none => listMean x

/-- `GlobalAvgPool2d.forward(x, mask)`: same computation as rank 1, over
the flattened pooled dimensions (2, 3). -/
def GlobalAvgPool2d.forward (x : List ℚ) (mask : Option (List ℚ)) : ℚ :=
  match mask with
  | some m => (List.zipWith (· * ·) x m).sum / (((m.filter (fun v => v ≠ 0)).length : ℚ))
  | none => listMean x

/-- `GlobalAvgPool3d.forward(x, mask)`: the source returns
`x.mean(axis=self.axis)` unconditionally — the `mask` argument is
accepted but never used. -/
def GlobalAvgPool3d.forward (x : List ℚ) (mask : Option (List ℚ)) : ℚ :=
  listMean x

/-! ## Helper lemmas -/

theorem getD_range_map {α : Type} (f : ℕ → α) (n i : ℕ) (d : α) :
    ((List.range n).map f).getD i d = if i < n then f i else d := by
  rw [List.getD_eq_getElem?_getD, List.getElem?_map]
  by_cases h : i < n
  · rw [List.getElem?_range h]
    simp [h]
  · rw [List.getElem?_eq_none (by simpa using Nat.le_of_not_lt h)]
    simp [h]

theorem getD_map_list {α β : Type} (f : α → β) (l : List α) (i : ℕ) (dl : α) (d : β) :
    i < l.length → (l.map f).getD i d = f (l.getD i dl) := by
  intro h
  rw [List.getD_eq_getElem?_getD, List.getElem?_map, List.getElem?_eq_getElem h,
    List.getD_eq_getElem?_getD, List.getElem?_eq_getElem h]
  rfl

theorem getD_map_list_of_ge {α β : Type} (f : α → β) (l : List α) (i : ℕ) (d : β) :
    l.length ≤ i → (l.map f).getD i d = d := by
  intro h
  rw [List.getD_eq_getElem?_getD, List.getElem?_map, List.getElem?_eq_none h]
  rfl

theorem headD_eq_getD_zero {α : Type} (l : List α) (d : α) : l.headD d = l.getD 0 d := by
  cases l <;> rfl

/-- The entries of a padded channel: left pad reads 0, everything else
shifts into the original channel (reads past its end are 0 either way, so
the right pad amount is immaterial for `getD _ 0`). -/
theorem pad1d_getD (l r : ℕ) (x : List ℚ) (i : ℕ) :
    (pad1d l r x).getD i 0 = if i < l then 0 else x.getD (i - l) 0 := by
  unfold pad1d
  rw [List.getD_eq_getElem?_getD, List.getElem?_append]
  simp only [List.length_replicate]
  by_cases h : i < l
  · rw [if_pos h, List.getElem?_replicate, if_pos h, if_pos h]
    rfl
  · rw [if_neg h, List.getElem?_append]
    by_cases h2 : i - l < x.length
    · rw [if_pos h2, List.getElem?_eq_getElem h2, if_neg h, List.getD_eq_getElem?_getD,
        List.getElem?_eq_getElem h2]
    · rw [if_neg h2, List.getElem?_replicate, if_neg h,
        List.getD_eq_getElem?_getD, List.getElem?_eq_none (Nat.le_of_not_lt h2)]
      by_cases h3 : i - l - x.length < r <;> simp [h3]

theorem length_pad1d (l r : ℕ) (x : List ℚ) : (pad1d l r x).length = l + x.length + r := by
  unfold pad1d
  simp [Nat.add_assoc]

theorem mapM_option_eq_some_map {α β : Type} (f : α → Option β) (g : α → β) :
    ∀ l : List α, (∀ a ∈ l, f a = some (g a)) → l.mapM f = some (l.map g)
  | [], _ => rfl
  | a :: l, h => by
    rw [List.mapM_cons, h a (by simp)]
    rw [mapM_option_eq_some_map f g l (fun b hb => h b (by simp [hb]))]
    rfl

theorem zipWith_congr_right {α β γ : Type} (f g : α → β → γ) :
    ∀ (l : List α) (l₂ : List β), (∀ b ∈ l₂, ∀ a, f a b = g a b) →
      List.zipWith f l l₂ = List.zipWith g l l₂
  | [], _, _ => by simp
  | _ :: _, [], _ => by simp
  | a :: l, b :: l₂, h => by
    simp only [List.zipWith_cons_cons]
    rw [h b (by simp), zipWith_congr_right f g l l₂ (fun c hc a2 => h c (by simp [hc]) a2)]

/-- The weight list built by the source's stride-2 indexing loop equals
the structurally described perturbation of the group suffix starting at
group `g`, whenever the suffix holds exactly two noise tensors per four
flat tensors. -/
theorem lstmMix_eq_specPerturb (m : ℚ) :
    ∀ (ns fw : List (List ℚ)) (g : ℕ),
      ns.length % 2 = 0 →
      (fw.drop (4 * g)).length = 2 * ns.length →
      lstmMix m fw g ns = some (specPerturb m (fw.drop (4 * g)) ns)
  | [], fw, g, _, h => by
    have hnil : fw.drop (4 * g) = [] := List.eq_nil_of_length_eq_zero (by simpa using h)
    rw [hnil]
    rfl
  | [_], _, _, hpar, _ => by simp at hpar
  | n0 :: n1 :: rest, fw, g, hpar, h => by
    rcases e : fw.drop (4 * g) with _ | ⟨w0, D1⟩
    · rw [e] at h; simp at h
    rcases D1 with _ | ⟨w1, D2⟩
    · rw [e] at h; simp at h; try omega
    rcases D2 with _ | ⟨w2, D3⟩
    · rw [e] at h; simp at h; try omega
    rcases D3 with _ | ⟨w3, D4⟩
    · rw [e] at h; simp at h; try omega
    have h0 : fw[4 * g]? = some w0 := by
      have hd := List.getElem?_drop fw (4 * g) 0
      rw [e] at hd
      simpa using hd.symm
    have h1 : fw[4 * g + 1]? = some w1 := by
      have hd := List.getElem?_drop fw (4 * g) 1
      rw [e] at hd
      simpa using hd.symm
    have h2 : fw[4 * g + 2]? = some w2 := by
      have hd := List.getElem?_drop fw (4 * g) 2
      rw [e] at hd
      simpa using hd.symm
    have h3 : fw[4 * g + 3]? = some w3 := by
      have hd := List.getElem?_drop fw (4 * g) 3
      rw [e] at hd
      simpa using hd.symm
    have hD4 : fw.drop (4 * (g + 1)) = D4 := by
      have : (4 : ℕ) * (g + 1) = 4 * g + 4 := by ring
      rw [this, ← List.drop_drop, e]
      rfl
    have hlen : (fw.drop (4 * (g + 1))).length = 2 * rest.length := by
      rw [hD4]
      rw [e] at h
      simp at h
      omega
    have ih := lstmMix_eq_specPerturb m rest fw (g + 1) (by simp at hpar ⊢; omega) hlen
    rw [hD4] at ih
    simp only [lstmMix, h0, h1, h2, h3, ih, e, Option.bind_some, specPerturb]
    rfl

/-- `sample_synaptic_noise` on a flat weight list of `G` groups of four
tensors always succeeds and yields `2 * G` noise tensors. -/
theorem sampleNoises_spec (rngv : ℕ → ℕ → ℚ) :
    ∀ (G : ℕ) (fw : List (List ℚ)) (k : ℕ), fw.length = 4 * G →
      ∃ ns, sampleNoises rngv fw k = some ns ∧ ns.length = 2 * G
  | 0, fw, _, h => by
    have : fw = [] := List.eq_nil_of_length_eq_zero (by omega)
    subst this
    exact ⟨[], rfl, rfl⟩
  | G + 1, fw, k, h => by
    rcases fw with _ | ⟨w0, D1⟩
    · simp at h
    rcases D1 with _ | ⟨w1, D2⟩
    · simp at h; omega
    rcases D2 with _ | ⟨w2, D3⟩
    · simp at h; omega
    rcases D3 with _ | ⟨w3, D4⟩
    · simp at h; omega
    have hlen : D4.length = 4 * G := by simp at h; omega
    obtain ⟨tail, htail, hl⟩ := sampleNoises_spec rngv G D4 (k + 2) hlen
    refine ⟨draw rngv k w0.length :: draw rngv (k + 1) w1.length :: tail, ?_, by simp [hl]; omega⟩
    simp only [sampleNoises, htail]
    rfl

theorem getElem?_eq_some_getD {α : Type} [Inhabited α] (l : List α) (i : ℕ) :
    i < l.length → l[i]? = some (l.getD i default) := by
  intro h
  rw [List.getElem?_eq_getElem h, List.getD_eq_getElem?_getD, List.getElem?_eq_getElem h]
  rfl

/-! ## Claim theorems -/

/-- C2: two-run noninterference in evaluation mode.  For each noise-capable
layer (Linear, Embedding, LSTM) with `training = false`, the forward
output on any input is the same for any two stored noise states (and any
configured magnitudes), and in particular the same whether or not
`sample_synaptic_noise` was ever called. -/
theorem eval_mode_noise_noninterference :
    ∀ (w : List (List ℚ)) (b : Option (List ℚ)) (n n' : Option (List (List ℚ)))
      (v v' : Option ℚ) (x : List ℚ) (rngv : ℕ → ℕ → ℚ) (dist : Bool)
      (ew : List (List ℚ)) (en en' : Option (List (List ℚ))) (ev ev' : Option ℚ)
      (inp : List ℕ)
      (fw : List (List ℚ)) (ln ln' : Option (List (List ℚ))) (lv lv' : Option ℚ)
      {I O : Type} (prim : List (List ℚ) → I → O) (linp : I),
      LinearState.forward ⟨w, b, n, v, false⟩ x = LinearState.forward ⟨w, b, n', v', false⟩ x ∧
      LinearState.forward (LinearState.sampleSynapticNoise ⟨w, b, n, v, false⟩ rngv dist) x
        = LinearState.forward ⟨w, b, n, v, false⟩ x ∧
      EmbeddingState.forward ⟨ew, en, ev, false⟩ inp
        = EmbeddingState.forward ⟨ew, en', ev', false⟩ inp ∧
      EmbeddingState.forward (EmbeddingState.sampleSynapticNoise ⟨ew, en, ev, false⟩ rngv dist) inp
        = EmbeddingState.forward ⟨ew, en, ev, false⟩ inp ∧
      LSTMState.forward prim ⟨fw, ln, lv, false⟩ linp
        = LSTMState.forward prim ⟨fw, ln', lv', false⟩ linp := by
  intro w b n n' v v' x rngv dist ew en en' ev ev' inp fw ln ln' lv lv' I O prim linp
  refine ⟨?_, ?_, ?_, ?_, ?_⟩
  · cases n <;> cases n' <;> rfl
  · simp only [LinearState.sampleSynapticNoise]
    cases n <;> cases dist <;> rfl
  · cases en <;> cases en' <;> rfl
  · simp only [EmbeddingState.sampleSynapticNoise]
    cases en <;> cases dist <;> rfl
  · cases ln <;> cases ln' <;> rfl

/-- C3: in training mode with magnitude `m` configured and noise samples
present, the forward output equals that of the same noise-free layer
whose weight tensors are replaced by `weight + m * noise`; bias tensors
(the optional bias of Linear, the interleaved `bias_ih`/`bias_hh` of the
LSTM flat weight list) are left untouched by the substitution. -/
theorem training_noise_is_weight_perturbation
    (w : List (List ℚ)) (b : Option (List ℚ)) (n : List (List ℚ)) (m : ℚ)
    (v' : Option ℚ) (x : List ℚ)
    (ew en : List (List ℚ)) (ev' : Option ℚ) (inp : List ℕ)
    (G : ℕ) (fw ns : List (List ℚ)) (lv' : Option ℚ)
    {I O : Type} (prim : List (List ℚ) → I → O) (linp : I)
    (hfw : fw.length = 4 * G) (hns : ns.length = 2 * G) :
    LinearState.forward ⟨w, b, some n, some m, true⟩ x
      = LinearState.forward ⟨matAdd w (matScale m n), b, none, v', true⟩ x ∧
    EmbeddingState.forward ⟨ew, some en, some m, true⟩ inp
      = EmbeddingState.forward ⟨matAdd ew (matScale m en), none, ev', true⟩ inp ∧
    LSTMState.forward prim ⟨fw, some ns, some m, true⟩ linp
      = LSTMState.forward prim ⟨specPerturb m fw ns, none, lv', true⟩ linp := by
  refine ⟨rfl, rfl, ?_⟩
  have hdrop : (fw.drop (4 * 0)).length = 2 * ns.length := by
    simp only [Nat.mul_zero, List.drop_zero]
    omega
  have hmix := lstmMix_eq_specPerturb m ns fw 0 (by omega) hdrop
  simp only [Nat.mul_zero, List.drop_zero] at hmix
  simp [LSTMState.forward, hmix]

/-- Witness for C3 at a concrete one-group LSTM and 1×1 Linear/Embedding. -/
theorem training_noise_is_weight_perturbation_witness :
    ([[1], [2], [3], [4]] : List (List ℚ)).length = 4 * 1 ∧
    ([[5], [6]] : List (List ℚ)).length = 2 * 1 ∧
    (LinearState.forward ⟨[[1]], some [1], some [[2]], some (1 : ℚ), true⟩ [1]
      = LinearState.forward ⟨matAdd [[1]] (matScale 1 [[2]]), some [1], none, none, true⟩ [1] ∧
    EmbeddingState.forward ⟨[[1]], some [[2]], some (1 : ℚ), true⟩ [0]
      = EmbeddingState.forward ⟨matAdd [[1]] (matScale 1 [[2]]), none, none, true⟩ [0] ∧
    LSTMState.forward (fun ws _ => ws) ⟨[[1], [2], [3], [4]], some [[5], [6]], some (1 : ℚ), true⟩ ()
      = LSTMState.forward (fun ws _ => ws)
        ⟨specPerturb 1 [[1], [2], [3], [4]] [[5], [6]], none, none, true⟩ ()) :=
  ⟨by decide, by decide,
    training_noise_is_weight_perturbation [[1]] (some [1]) [[2]] 1 none [1] [[1]] [[2]] none [0]
      1 [[1], [2], [3], [4]] [[5], [6]] none (fun ws _ => ws) () (by decide) (by decide)⟩

/-- C6: after `sample_synaptic_noise`, the training-mode forward hands the
recurrent primitive a flattened weight list in which exactly the
`weight_ih` and `weight_hh` tensors of each (layer, direction) group of
four are perturbed by their two one-to-one corresponding noise tensors in
traversal order (`specPerturb`), while the interleaved bias tensors are
passed through unmodified in their original positions; the sampled set
holds exactly two noise tensors per group.  In particular the source's
stride-2 index arithmetic (`2*i`, `2*i+1`, `2*i+2`, `2*i+3` over
`i ∈ range(0, len(noises), 2)`) stays in bounds for any number of
groups. -/
theorem lstm_noise_weight_list_alignment
    (G : ℕ) (fw : List (List ℚ)) (rngv : ℕ → ℕ → ℚ) (dist : Bool) (m : ℚ)
    (ln : Option (List (List ℚ))) (st' : LSTMState)
    {I O : Type} (prim : List (List ℚ) → I → O) (inp : I)
    (hfw : fw.length = 4 * G)
    (hsample : LSTMState.sampleSynapticNoise ⟨fw, ln, some m, true⟩ rngv dist = some st') :
    ∃ ns, st'.noises = some ns ∧ ns.length = 2 * G ∧
      LSTMState.forward prim st' inp = some (prim (specPerturb m fw ns) inp) := by
  obtain ⟨ns, hns, hlen⟩ := sampleNoises_spec rngv G fw 0 hfw
  have hst : st' = ⟨fw, some ns, some m, true⟩ := by
    simp only [LSTMState.sampleSynapticNoise, hns, Option.map_some', ite_self] at hsample
    exact (Option.some_injective _ hsample).symm
  subst hst
  refine ⟨ns, rfl, hlen, ?_⟩
  have hdrop : (fw.drop (4 * 0)).length = 2 * ns.length := by
    simp only [Nat.mul_zero, List.drop_zero]
    omega
  have hmix := lstmMix_eq_specPerturb m ns fw 0 (by omega) hdrop
  simp only [Nat.mul_zero, List.drop_zero] at hmix
  simp [LSTMState.forward, hmix]

/-- Witness for C6: one group of four flat weights, constant value source. -/
theorem lstm_noise_weight_list_alignment_witness :
    ([[1], [2], [3], [4]] : List (List ℚ)).length = 4 * 1 ∧
    LSTMState.sampleSynapticNoise ⟨[[1], [2], [3], [4]], none, some (2 : ℚ), true⟩
        (fun _ _ => 1) false
      = some ⟨[[1], [2], [3], [4]], some [[1], [1]], some (2 : ℚ), true⟩ ∧
    (∃ ns, (⟨[[1], [2], [3], [4]], some [[1], [1]], some (2 : ℚ), true⟩ : LSTMState).noises
        = some ns ∧ ns.length = 2 * 1 ∧
      LSTMState.forward (fun ws (_ : Unit) => ws)
          ⟨[[1], [2], [3], [4]], some [[1], [1]], some (2 : ℚ), true⟩ ()
        = some (specPerturb 2 [[1], [2], [3], [4]] ns)) :=
  ⟨by decide, by decide,
    lstm_noise_weight_list_alignment 1 [[1], [2], [3], [4]] (fun _ _ => 1) false 2 none
      ⟨[[1], [2], [3], [4]], some [[1], [1]], some (2 : ℚ), true⟩ (fun ws (_ : Unit) => ws) ()
      (by decide) (by decide)⟩

/-- C9 (amended): `GlobalAvgPool1d` and `GlobalAvgPool2d` compute
`sum(x*mask) / count_nonzero(mask)` when a mask is supplied and the plain
mean otherwise; `GlobalAvgPool3d`, however, always returns the plain
mean, ignoring any supplied mask. -/
theorem masked_global_avg_pool_formula :
    ∀ (x m : List ℚ) (mask : Option (List ℚ)),
      GlobalAvgPool1d.forward x (some m) = maskedSumDiv x m ∧
      GlobalAvgPool1d.forward x none = listMean x ∧
      GlobalAvgPool2d.forward x (some m) = maskedSumDiv x m ∧
      GlobalAvgPool2d.forward x none = listMean x ∧
      GlobalAvgPool3d.forward x mask = listMean x := by
  intro x m mask
  exact ⟨rfl, rfl, rfl, rfl, rfl⟩

/-- Counterexample to C9 as stated: `GlobalAvgPool3d` is a masked global
average pooling layer (its forward accepts a mask), yet with
`x = [1, 2]` and `mask = [1, 0]` it returns the plain mean `3/2` instead
of `sum(x*mask) / count_nonzero(mask) = 1`. -/
theorem pool3d_ignores_mask_cex :
    GlobalAvgPool3d.forward [1, 2] (some [1, 0]) ≠ maskedSumDiv [1, 2] [1, 0] := by
  norm_num [GlobalAvgPool3d.forward, maskedSumDiv, listMean]

/-- C10: a `SwitchLinear` whose experts were built with `bias=False`
(every expert's bias attribute is `None`) has no bias-free forward path:
`forward` unconditionally gathers and stacks the selected experts'
biases, so it fails on every input batch. -/
theorem switchlinear_bias_false_forward_fails :
    ∀ (experts : List Expert) (x : List (List ℚ)) (indices : List ℕ),
      (∀ e ∈ experts, e.bias = none) →
      SwitchLinear.forward experts x indices = none := by
  intro experts x indices hbias
  cases indices with
  | nil => rfl
  | cons i rest =>
    have hfail : ((i :: rest).mapM (fun j => experts[j]?.bind Expert.bias))
        = (none : Option (List (List ℚ))) := by
      rw [List.mapM_cons]
      have hb : experts[i]?.bind Expert.bias = none := by
        cases hi : experts[i]? with
        | none => rfl
        | some e =>
          have he : e ∈ experts := List.getElem?_mem hi
          simp [hbias e he]
      rw [hb]
      rfl
    unfold SwitchLinear.forward
    rw [hfail]
    cases hw : ((i :: rest).mapM (fun j => experts[j]?.map Expert.weight)) <;> rfl

/-- Witness for C10: a single bias-less expert, a one-example batch. -/
theorem switchlinear_bias_false_forward_fails_witness :
    (∀ e ∈ ([⟨[[1]], none⟩] : List Expert), e.bias = none) ∧
    SwitchLinear.forward [⟨[[1]], none⟩] [[1]] [0] = none :=
  ⟨by decide, switchlinear_bias_false_forward_fails [⟨[[1]], none⟩] [[1]] [0] (by decide)⟩

/-- C8 (amended): the forward conv constructors (`Conv1d`, `Conv3d`) and
`ConvTranspose1d` signal an error at construction time for any padding
mode outside `{valid, same, causal}`, and `Conv2d` for any mode outside
its allowed set `{valid, same}`; no forward-time check is involved.
(`ConvTranspose2d`/`ConvTranspose3d` take no padding mode, and
`ConvTranspose3d` silently clamps `output_padding` — see the
counterexample.) -/
theorem conv_constructors_fail_fast
    (k k2 k3 s d : ℕ) (mode : String)
    (h1 : mode ≠ "valid") (h2 : mode ≠ "same") (h3 : mode ≠ "causal") :
    Conv1d.init k s d mode = .error "Conv1d: assert padding in [valid, same, causal]" ∧
    Conv2d.init k k2 s d mode = .error "Conv2d: assert padding in [valid, same]" ∧
    Conv3d.init k k2 k3 s d mode = .error "Conv3d: assert padding in [valid, same, causal]" ∧
    ConvTranspose1d.init k s 0 d mode
      = .error "ConvTranspose1d: assert padding in [valid, same, causal]" := by
  refine ⟨?_, ?_, ?_, ?_⟩ <;>
    simp [Conv1d.init, Conv2d.init, Conv3d.init, ConvTranspose1d.init, h1, h2, h3]

/-- Witness for C8 at the concrete invalid mode string "diagonal". -/
theorem conv_constructors_fail_fast_witness :
    ("diagonal" ≠ "valid" ∧ "diagonal" ≠ "same" ∧ "diagonal" ≠ "causal") ∧
    (Conv1d.init 3 1 1 "diagonal" = .error "Conv1d: assert padding in [valid, same, causal]" ∧
    Conv2d.init 3 3 1 1 "diagonal" = .error "Conv2d: assert padding in [valid, same]" ∧
    Conv3d.init 3 3 3 1 1 "diagonal" = .error "Conv3d: assert padding in [valid, same, causal]" ∧
    ConvTranspose1d.init 3 1 0 1 "diagonal"
      = .error "ConvTranspose1d: assert padding in [valid, same, causal]") :=
  ⟨⟨by decide, by decide, by decide⟩,
    conv_constructors_fail_fast 3 3 3 1 1 "diagonal" (by decide) (by decide) (by decide)⟩

/-- Counterexample to C8 as stated: `ConvTranspose3d` is a conv-family
constructor, and `output_padding = 5` with `stride = 1` is a malformed
shape argument for the wrapped op (it requires
`output_padding < max(stride, dilation)`), yet construction succeeds with
no error and the value is silently corrected to
`min(output_padding, stride - 1) = 0 ≠ 5`. -/
theorem convtranspose3d_silent_clamp_cex :
    ConvTranspose3d.init 3 1 0 5 1
      = ({ kernel_size := 3, stride := 1, padding := 0, output_padding := 0,
           dilation := 1 } : ConvT3dCfg) ∧ (0 : ℕ) ≠ 5 := by
  decide

/-- C7 (amended, rank 1, stride 1): `ConvTranspose1d.__init__` sets the
wrapped op's native padding parameter to `dilation*(kernel-1)`, mode
"valid" adds an explicit pre-op pad of `dilation*(kernel-1)` on both
sides, and for stride 1 the resulting output spatial length equals the
standard unpadded transpose-conv formula
`(L-1)*stride + dilation*(kernel-1) + output_padding + 1`. -/
theorem convtranspose1d_valid_unpadded_outlen
    (k op d : ℕ) (L : ℤ) (cfg : ConvT1dCfg)
    (hinit : ConvTranspose1d.init k 1 op d "valid" = .ok cfg) :
    cfg.padding = d * (k - 1) ∧
    cfg.prePad = (d * (k - 1), d * (k - 1)) ∧
    ConvTranspose1d.outLen cfg L = (L - 1) * 1 + (d : ℤ) * ((k - 1 : ℕ) : ℤ) + op + 1 := by
  have hcfg : cfg = ⟨k, 1, d, op, d * (k - 1), (d * (k - 1), d * (k - 1))⟩ := by
    simp [ConvTranspose1d.init] at hinit
    exact hinit.symm
  subst hcfg
  refine ⟨rfl, rfl, ?_⟩
  simp only [ConvTranspose1d.outLen, convT1dOutLen]
  push_cast
  ring

/-- Witness for C7 at `k = 3`, `d = 2`, `op = 1`, `L = 5`: the valid-mode
output length `(5-1)*1 + 2*2 + 1 + 1 = 10`. -/
theorem convtranspose1d_valid_unpadded_outlen_witness :
    (ConvTranspose1d.init 3 1 1 2 "valid"
      = .ok ⟨3, 1, 2, 1, 4, (4, 4)⟩) ∧
    ((⟨3, 1, 2, 1, 4, (4, 4)⟩ : ConvT1dCfg).padding = 2 * (3 - 1) ∧
    (⟨3, 1, 2, 1, 4, (4, 4)⟩ : ConvT1dCfg).prePad = (2 * (3 - 1), 2 * (3 - 1)) ∧
    ConvTranspose1d.outLen ⟨3, 1, 2, 1, 4, (4, 4)⟩ 5
      = ((5 : ℤ) - 1) * 1 + (2 : ℤ) * ((3 - 1 : ℕ) : ℤ) + 1 + 1) :=
  ⟨rfl, convtranspose1d_valid_unpadded_outlen 3 1 2 5 ⟨3, 1, 2, 1, 4, (4, 4)⟩ rfl⟩

/-- Counterexample to C7 as stated: for rank 2 the claim fails — the
`ConvTranspose2d` constructor passes its numeric `padding` argument
(default 0) straight to the wrapped op, so with `kernel = 3`,
`dilation = 1` the native padding parameter is `0`, not
`dilation*(kernel-1) = 2`, and there is no mode logic or pre-op padding
at all. -/
theorem convtranspose2d_no_native_padding_cex :
    (ConvTranspose2d.init 3 1 0 0 1).padding = 0 ∧ (0 : ℕ) ≠ 1 * (3 - 1) := by
  decide

/-- C1: for a `SwitchLinear` with every expert bias present (bias=True
construction), a nonempty batch, and expert indices each in range, the
forward output row for example `i` is exactly the result of applying the
single expert module `expert[indices[i]]` alone (its own `F.linear`) to
example `i` — the same exact arithmetic, entry for entry. -/
theorem switchlinear_rowwise_expert_equiv
    (experts : List Expert) (x : List (List ℚ)) (indices : List ℕ)
    (hne : indices ≠ [])
    (hlen : x.length = indices.length)
    (hrange : ∀ i ∈ indices, i < experts.length)
    (hbias : ∀ i ∈ indices, ((experts.getD i default).bias).isSome) :
    SwitchLinear.forward experts x indices
      = some (List.zipWith (fun v i => nnLinear (experts.getD i default) v) x indices) := by
  have hw : indices.mapM (fun i => experts[i]?.map Expert.weight)
      = some (indices.map (fun i => (experts.getD i default).weight)) := by
    apply mapM_option_eq_some_map
    intro i hi
    rw [getElem?_eq_some_getD experts i (hrange i hi)]
    rfl
  have hb : indices.mapM (fun i => experts[i]?.bind Expert.bias)
      = some (indices.map (fun i => ((experts.getD i default).bias).getD [])) := by
    apply mapM_option_eq_some_map
    intro i hi
    rw [getElem?_eq_some_getD experts i (hrange i hi), Option.some_bind]
    rcases ho : ((experts.getD i default).bias) with _ | b
    · have hc := hbias i hi
      rw [ho] at hc
      simp at hc
    · rfl
  unfold SwitchLinear.forward
  rw [hw, hb]
  simp only []
  rw [if_neg (by simp [hne]), if_neg (by simp [hlen])]
  congr 1
  rw [List.zip_map', List.zipWith_map_right]
  apply zipWith_congr_right
  intro i hi v
  have hbi := hbias i hi
  rcases ho : ((experts.getD i default).bias) with _ | b
  · rw [ho] at hbi
    simp at hbi
  · simp only [nnLinear, Flinear, ho, Option.getD_some]

/-- Witness for C1: two experts with biases, a two-example batch selecting
experts 1 and 0. -/
theorem switchlinear_rowwise_expert_equiv_witness :
    (([1, 0] : List ℕ) ≠ [] ∧ ([[2], [3]] : List (List ℚ)).length = ([1, 0] : List ℕ).length ∧
      (∀ i ∈ ([1, 0] : List ℕ), i < ([⟨[[5]], some [7]⟩, ⟨[[6]], some [8]⟩] : List Expert).length) ∧
      (∀ i ∈ ([1, 0] : List ℕ),
        ((([⟨[[5]], some [7]⟩, ⟨[[6]], some [8]⟩] : List Expert).getD i default).bias).isSome)) ∧
    SwitchLinear.forward [⟨[[5]], some [7]⟩, ⟨[[6]], some [8]⟩] [[2], [3]] [1, 0]
      = some (List.zipWith
          (fun v i => nnLinear (([⟨[[5]], some [7]⟩, ⟨[[6]], some [8]⟩] : List Expert).getD i default) v)
          [[2], [3]] [1, 0]) :=
  ⟨⟨by decide, by decide, by decide, by decide⟩,
    switchlinear_rowwise_expert_equiv [⟨[[5]], some [7]⟩, ⟨[[6]], some [8]⟩] [[2], [3]] [1, 0]
      (by decide) (by decide) (by decide) (by decide)⟩

/-- Counterexample to C4 as stated: a causal `Conv1d` with `kernel = 2`
and `dilation = 2` (stride 1).  The two inputs agree at every position
`≤ 0`, differing only at position `1 > 0`, yet the outputs at position
`t = 0` differ: the left pad is only `k-1 = 1`, so with dilation 2 the
kernel tap at offset `2` reads original position `1`. -/
theorem causal_conv_dilation_leakage_cex :
    Conv1d.init 2 1 2 "causal" = .ok (1, 0) ∧
    ((([[0, 0]] : List (List ℚ)).getD 0 []).getD 0 0
      = (([[0, 1]] : List (List ℚ)).getD 0 []).getD 0 0) ∧
    ((Conv1d.forward [[[0, 1]]] [0] 2 2 1 (1, 0) [[0, 0]]).getD 0 []).getD 0 0
      ≠ ((Conv1d.forward [[[0, 1]]] [0] 2 2 1 (1, 0) [[0, 1]]).getD 0 []).getD 0 0 := by
  refine ⟨rfl, rfl, ?_⟩
  norm_num [Conv1d.forward, conv1dPrim, conv1dOutLen, pad1d, List.range_succ,
    List.getD_eq_getElem?_getD]

/-- C4 (amended): for a causal `Conv1d`, the output at position `t` is
invariant to any change of the input at positions strictly greater than
`t*stride + (kernel-1)*(dilation-1)`; for stride 1 and dilation 1 this is
exactly invariance to changes at positions `> t`. -/
theorem causal_conv_no_future_leakage
    (k d s : ℕ) (pads : ℕ × ℕ) (w : List (List (List ℚ))) (b : List ℚ)
    (x x' : List (List ℚ)) (o t : ℕ)
    (hinit : Conv1d.init k s d "causal" = .ok pads)
    (hd : 1 ≤ d)
    (hc : x.length = x'.length)
    (hcl : ∀ c, (x.getD c []).length = (x'.getD c []).length)
    (hagree : ∀ c p, p ≤ t * s + (k - 1) * (d - 1) →
      (x.getD c []).getD p 0 = (x'.getD c []).getD p 0) :
    ((Conv1d.forward w b k d s pads x).getD o []).getD t 0
      = ((Conv1d.forward w b k d s pads x').getD o []).getD t 0 := by
  have hpads : pads = (k - 1, 0) := by
    simp [Conv1d.init] at hinit
    exact hinit.symm
  have hp1 : pads.1 = k - 1 := by rw [hpads]
  have hp2 : pads.2 = 0 := by rw [hpads]
  by_cases hx0 : x.length = 0
  · have hxe : x = [] := List.length_eq_zero.mp hx0
    have hxe' : x' = [] := List.length_eq_zero.mp (by omega)
    subst hxe hxe'
    rfl
  have hxpos : 0 < x.length := Nat.pos_of_ne_zero hx0
  have hxpos' : 0 < x'.length := by omega
  have key : ∀ c j, j < k →
      ((x.map (pad1d (k - 1) 0)).getD c []).getD (t * s + j * d) 0
        = ((x'.map (pad1d (k - 1) 0)).getD c []).getD (t * s + j * d) 0 := by
    intro c j hj
    by_cases hcx : c < x.length
    · rw [getD_map_list _ x c [] [] hcx, getD_map_list _ x' c [] [] (by omega)]
      rw [pad1d_getD, pad1d_getD]
      by_cases hi : t * s + j * d < k - 1
      · rw [if_pos hi, if_pos hi]
      · rw [if_neg hi, if_neg hi]
        apply hagree c
        have h1 : j ≤ k - 1 := by omega
        have h2 : j * d ≤ (k - 1) * d := Nat.mul_le_mul_right d h1
        have h3 : (k - 1) * d = (k - 1) * (d - 1) + (k - 1) := by
          rcases d with _ | d2
          · omega
          · rw [Nat.mul_succ]
            simp
        omega
    · rw [getD_map_list_of_ge _ x c [] (Nat.le_of_not_lt hcx),
        getD_map_list_of_ge _ x' c [] (by omega)]
  have hLp : ((x.map (pad1d (k - 1) 0)).headD []).length
      = ((x'.map (pad1d (k - 1) 0)).headD []).length := by
    rw [headD_eq_getD_zero, headD_eq_getD_zero,
      getD_map_list _ x 0 [] [] hxpos, getD_map_list _ x' 0 [] [] hxpos',
      length_pad1d, length_pad1d, hcl 0]
  unfold Conv1d.forward conv1dPrim
  rw [hp1, hp2]
  rw [getD_range_map, getD_range_map]
  by_cases ho : o < w.length
  · rw [if_pos ho, if_pos ho]
    rw [getD_range_map, getD_range_map]
    rw [hLp]
    by_cases ht : t < conv1dOutLen ((x'.map (pad1d (k - 1) 0)).headD []).length k d s
    · rw [if_pos ht, if_pos ht]
      congr 1
      congr 1
      apply List.map_congr_left
      intro c hc2
      congr 1
      apply List.map_congr_left
      intro j hj
      rw [key c j (List.mem_range.mp hj)]
    · rw [if_neg ht, if_neg ht]
  · rw [if_neg ho, if_neg ho]

/-- Witness for C4 at a concrete causal layer (`k = 2`, `d = 1`,
stride 1, one channel). -/
theorem causal_conv_no_future_leakage_witness :
    (Conv1d.init 2 1 1 "causal" = .ok (1, 0) ∧ 1 ≤ 1 ∧
      ([[1, 2]] : List (List ℚ)).length = ([[1, 2]] : List (List ℚ)).length) ∧
    ((Conv1d.forward [[[1, 1]]] [0] 2 1 1 (1, 0) [[1, 2]]).getD 0 []).getD 0 0
      = ((Conv1d.forward [[[1, 1]]] [0] 2 1 1 (1, 0) [[1, 2]]).getD 0 []).getD 0 0 :=
  ⟨⟨rfl, by decide, rfl⟩,
    causal_conv_no_future_leakage 2 1 1 (1, 0) [[[1, 1]]] [0] [[1, 2]] [[1, 2]] 0 0
      rfl (by decide) rfl (fun c => rfl) (fun c p hp => rfl)⟩

/-- Counterexample to C5 as stated: a same-mode `Conv1d` with
`kernel = 2`, `dilation = 2`, stride 1 on an input of spatial length 3
produces an output of spatial length 2: the fixed pre-pad
`k/2 + (k-1)/2 = k-1` compensates the kernel extent only for
dilation 1. -/
theorem same_conv_dilation_length_cex :
    Conv1d.init 2 1 2 "same" = .ok (1, 0) ∧
    ((Conv1d.forward [[[1, 1]]] [0] 2 2 1 (1, 0) [[0, 0, 0]]).getD 0 []).length = 2 ∧
    ((([[0, 0, 0]] : List (List ℚ)).getD 0 []).length = 3) ∧ (2 : ℕ) ≠ 3 := by
  refine ⟨rfl, rfl, rfl, by decide⟩

/-- C5 (amended): for a same-mode `Conv1d` with stride 1 and dilation 1,
the output spatial length equals the input spatial length, for every
kernel size. -/
theorem same_conv_preserves_length
    (k : ℕ) (pads : ℕ × ℕ) (w : List (List (List ℚ))) (b : List ℚ)
    (x : List (List ℚ)) (o : ℕ)
    (hinit : Conv1d.init k 1 1 "same" = .ok pads)
    (hk : 1 ≤ k) (ho : o < w.length) (hx : x ≠ [])
    (hL : 1 ≤ (x.getD 0 []).length) :
    ((Conv1d.forward w b k 1 1 pads x).getD o []).length = (x.getD 0 []).length := by
  have hpads : pads = (k / 2, (k - 1) / 2) := by
    simp [Conv1d.init] at hinit
    exact hinit.symm
  have hp1 : pads.1 = k / 2 := by rw [hpads]
  have hp2 : pads.2 = (k - 1) / 2 := by rw [hpads]
  have hxpos : 0 < x.length := List.length_pos.mpr hx
  unfold Conv1d.forward conv1dPrim
  rw [hp1, hp2]
  rw [getD_range_map, if_pos ho, List.length_map, List.length_range]
  rw [headD_eq_getD_zero, getD_map_list _ x 0 [] [] hxpos, length_pad1d]
  unfold conv1dOutLen
  omega

/-- Witness for C5 at `k = 3`, one output channel, input length 2. -/
theorem same_conv_preserves_length_witness :
    (Conv1d.init 3 1 1 "same" = .ok (1, 1) ∧ 1 ≤ 3 ∧ 0 < 1 ∧
      ([[1, 2]] : List (List ℚ)) ≠ [] ∧ 1 ≤ (([[1, 2]] : List (List ℚ)).getD 0 []).length) ∧
    ((Conv1d.forward [[[1, 1, 1]]] [0] 3 1 1 (1, 1) [[1, 2]]).getD 0 []).length
      = (([[1, 2]] : List (List ℚ)).getD 0 []).length :=
  ⟨⟨rfl, by decide, by decide, by decide, by decide⟩,
    same_conv_preserves_length 3 (1, 1) [[[1, 1, 1]]] [0] [[1, 2]] 0 rfl (by decide) (by decide)
      (by decide) (by decide)⟩
